import Mathlib

/-!
Verification of the goconf configuration-file library.

The development shallowly embeds the Go sources of the repository:

* `V0` models the early revision (`Item` carrying a `rawKey`, the composite
  array key `[@key]` / `[@key@sep]` decoded at access time by
  `Item.ToStringArray`, and `parseKey`).
* The top-level definitions model the current revision: `conf.go`
  (section-aware `Conf`, the line parser `_parse`, the lookup API) together
  with the `Item` of the current item file (two fields `key`, `val`, array
  splitting on the process-wide element separator) and the loader
  (`parseConfigOptName`, `loadField`, `Load`).

Go strings are modeled as Lean `String` (a list of characters); Go byte
indexing and byte separators only ever meet ASCII data in this library, so
character granularity coincides with byte granularity everywhere we reason.
Mutation of a `Conf` (the current-section cursor, item insertion) is modeled
by explicit state passing; a Go function that both mutates its receiver and
returns an error is modeled as returning the updated state paired with the
error. Go runtime panics (out-of-range string indexing) are modeled by a
dedicated `panic` outcome of the result type.
-/

/-- The single-quote character (ASCII 39), used by the Go error format
strings such as the duplicate-section message. -/
def squo : String := (Char.ofNat 39).toString

/-- The cutset `_SPACE_CHARS = " \t\n"` used by `strings.Trim` throughout
the sources. -/
def isSpaceChar (c : Char) : Bool := c = ' ' || c = '\t' || c = '\n'

/-- Model of `strings.TrimLeft(s, " \t\n")` on character lists. -/
def trimLeftL (l : List Char) : List Char := l.dropWhile isSpaceChar

/-- Model of `strings.TrimRight(s, " \t\n")` on character lists. -/
def trimRightL (l : List Char) : List Char :=
  (l.reverse.dropWhile isSpaceChar).reverse

/-- Model of `strings.Trim(s, " \t\n")` on character lists. -/
def trimL (l : List Char) : List Char := trimRightL (trimLeftL l)

/-- Model of `strings.Trim(s, " \t\n")`. -/
def trimS (s : String) : String := ⟨trimL s.data⟩

/-- Model of `strings.Split(s, string(sep))` for a one-character separator: split at
every occurrence, keeping empty segments (`Split("", sep) = [""]`). -/
def splitChar (sep : Char) : List Char → List (List Char)
  | [] => [[]]
  | c :: rest =>
    if c = sep then [] :: splitChar sep rest
    else
      match splitChar sep rest with
      | [] => [[c]]
      | s :: ss => (c :: s) :: ss

/-- Model of `strings.Split` producing strings. -/
def splitS (sep : Char) (s : String) : List String :=
  (splitChar sep s.data).map (fun l => ⟨l⟩)

/-- Model of `strings.SplitN(s, string(sep), 2)`: one part when the separator is
absent, otherwise the text before the first separator and everything
after it. -/
def splitN2 (sep : Char) (l : List Char) : List (List Char) :=
  let pre := l.takeWhile (fun c => c ≠ sep)
  match l.dropWhile (fun c => c ≠ sep) with
  | [] => [pre]
  | _ :: after => [pre, after]

/-- Model of `strings.LastIndexAny(s, string(c))`: index of the last occurrence of
`c`, `none` standing for Go's `-1`. -/
def lastIdxOf (c : Char) : List Char → Option Nat
  | [] => none
  | x :: rest =>
    match lastIdxOf c rest with
    | some i => some (i + 1)
    | none => if x = c then some 0 else none

/-- Decimal digit run of `strconv.ParseInt`: `none` if the list is empty or
contains a non-digit. -/
def digitsToNat (acc : Nat) : List Char → Option Nat
  | [] => some acc
  | c :: rest =>
    if '0' ≤ c ∧ c ≤ '9' then
      digitsToNat (acc * 10 + (c.toNat - '0'.toNat)) rest
    else none

/-- Model of `strconv.ParseInt(s, 10, 64)`: optional sign, non-empty digit run, value
within the signed 64-bit range; `none` models the returned error. -/
def parseInt64 (s : String) : Option Int :=
  match s.data with
  | [] => none
  | '+' :: rest =>
    match rest, digitsToNat 0 rest with
    | _ :: _, some n => if n ≤ 2 ^ 63 - 1 then some (n : Int) else none
    | _, _ => none
  | '-' :: rest =>
    match rest, digitsToNat 0 rest with
    | _ :: _, some n => if n ≤ 2 ^ 63 then some (-(n : Int)) else none
    | _, _ => none
  | l =>
    match digitsToNat 0 l with
    | some n => if n ≤ 2 ^ 63 - 1 then some (n : Int) else none
    | none => none

/-- Result of a Go call that may end in a runtime panic (out-of-range
indexing), an error return, or a normal return. -/
inductive GoRes (α : Type) where
  | panic : GoRes α
  | fail : String → GoRes α
  | ok : α → GoRes α
deriving DecidableEq, Repr

namespace V0

/-- Model of `Item` of the early revision: the raw key token is retained so that the
composite-array grammar can be re-inspected at access time. -/
structure Item where
  rawKey : String
  val : String
  key : String
deriving DecidableEq, Repr

/-- Model of `parseKey` of the early revision: strip the composite markers
`[@...]` / `[$...]` (and a trailing one-character separator marker) from a
key token; non-composite tokens are returned unchanged. -/
def parseKey (key : String) : String :=
  let k := key.data
  if k.length < 4 then key
  else if ¬(k.head? = some '[' ∧ k.getLast? = some ']' ∧
      (k.get? 1 = some '@' ∨ k.get? 1 = some '$')) then key
  else
    match k.get? (k.length - 3) with
    | some c =>
      if k.length ≠ 4 ∧ (c = '@' ∨ c = '$') then ⟨(k.drop 2).take (k.length - 5)⟩
      else ⟨(k.drop 2).take (k.length - 3)⟩
    | none => ⟨(k.drop 2).take (k.length - 3)⟩

/-- Model of `Item.ToStringArray` of the early revision: require the composite-array
grammar on `rawKey` (`[` first, `]` last, `@` second, length at least 4,
tested in this order with Go's short-circuit `||`, each index access
panicking when out of range), resolve the separator from the position of the
last `@` (default `' '` when it is the opening marker), and split the value.
Empty segments are kept and nothing is trimmed. -/
def Item.ToStringArray (item : Item) : GoRes (List String) :=
  let k := item.rawKey.data
  let keyLen := k.length
  match k.get? 0 with
  | none => GoRes.panic
  | some c0 =>
    if c0 ≠ '[' then
      GoRes.fail ("item is not a Array, key: " ++ item.rawKey)
    else
      match k.get? (keyLen - 1) with
      | none => GoRes.panic
      | some cl =>
        if cl ≠ ']' then
          GoRes.fail ("item is not a Array, key: " ++ item.rawKey)
        else
          match k.get? 1 with
          | none => GoRes.panic
          | some c1 =>
            if c1 ≠ '@' then
              GoRes.fail ("item is not a Array, key: " ++ item.rawKey)
            else if keyLen < 4 then
              GoRes.fail ("item is not a Array, key: " ++ item.rawKey)
            else
              match lastIdxOf '@' k with
              | none => GoRes.fail "not found Array Tag: @"
              | some sepIdx =>
                if sepIdx = 1 then
                  GoRes.ok (splitS ' ' item.val)
                else if sepIdx ≠ keyLen - 3 then
                  GoRes.fail "Array Sep can only set to one char"
                else
                  match k.get? (sepIdx + 1) with
                  | none => GoRes.panic
                  | some sep => GoRes.ok (splitS sep item.val)

/-- Element conversion loop of the early `Item.ToIntArray`: trim each
segment and parse it as a base-10 signed 64-bit integer, aborting on the
first failure. -/
def intElems : List String → GoRes (List Int)
  | [] => GoRes.ok []
  | e :: rest =>
    match parseInt64 (trimS e) with
    | none => GoRes.fail ("parsing " ++ e ++ ": invalid syntax")
    | some v =>
      match intElems rest with
      | GoRes.ok vs => GoRes.ok (v :: vs)
      | r => r

/-- Model of `Item.ToIntArray` of the early revision: `ToStringArray`, then the
per-element integer parse. -/
def Item.ToIntArray (item : Item) : GoRes (List Int) :=
  match item.ToStringArray with
  | GoRes.ok eles => intElems eles
  | GoRes.fail e => GoRes.fail e
  | GoRes.panic => GoRes.panic

end V0


/-- The reserved global section name `_GLOBAL = "__global__"`. -/
def GLOBAL : String := "__global__"

/-- Model of `Item` of the current revision (`conf.go` stores `&Item{key, val}`):
just the stored key and the trimmed value text. -/
structure Item where
  key : String
  val : String
deriving DecidableEq, Repr

/-- The process-wide element separator `elementSep`, modeled at its default
`_DEFAULT_SEP = ' '` (set by `init` and only changed by `SetElementSep`,
which no claim exercises). -/
def elementSep : Char := ' '

/-- The collection loop of the current `Item.ToStringArray`: keep a segment
only when it is non-empty before trimming, and trim the kept segments. -/
def collectEles : List String → List String
  | [] => []
  | p :: rest =>
    if p ≠ "" then trimS p :: collectEles rest else collectEles rest

/-- Model of `Item.ToStringArray` of the current revision: split the value on the
process-wide `elementSep`, drop segments that are empty (before trimming),
and trim the survivors. It never fails and never looks at the key. -/
def Item.ToStringArray (item : Item) : List String :=
  collectEles (splitS elementSep item.val)

/-- Model of `Item.ToInt`: `strconv.ParseInt(val, 10, 64)`. -/
def Item.ToInt (item : Item) : Except String Int :=
  match parseInt64 item.val with
  | some v => Except.ok v
  | none => Except.error ("parsing " ++ item.val ++ ": invalid syntax")

/-- Model of `Item.ToString`: identity on the stored value. -/
def Item.ToString (item : Item) : String := item.val

/-- Element loop of the current `Item.ToIntArray`: trim each element and
parse it, aborting on the first failure. -/
def intElemsE : List String → Except String (List Int)
  | [] => Except.ok []
  | e :: rest =>
    match parseInt64 (trimS e) with
    | none => Except.error ("parsing " ++ e ++ ": invalid syntax")
    | some v =>
      match intElemsE rest with
      | Except.ok vs => Except.ok (v :: vs)
      | Except.error err => Except.error err

/-- Model of `Item.ToIntArray` of the current revision: `ToStringArray` (which cannot
fail), then the per-element integer parse. -/
def Item.ToIntArray (item : Item) : Except String (List Int) :=
  intElemsE item.ToStringArray

/-- A section is a mapping from key to `Item`; Go's `map[string]*Item` is
modeled as an association list with insert-or-replace updates. -/
abbrev Sec := List (String × Item)

/-- Association-list lookup (Go map read). -/
def lookupA {α : Type} : List (String × α) → String → Option α
  | [], _ => none
  | (k, v) :: rest, key => if k = key then some v else lookupA rest key

/-- Association-list insert-or-replace (Go map write `m[k] = v`). -/
def insertA {α : Type} : List (String × α) → String → α → List (String × α)
  | [], key, v => [(key, v)]
  | (k, v') :: rest, key, v =>
    if k = key then (key, v) :: rest else (k, v') :: insertA rest key v

/-- Model of `Conf` of the current revision.  In Go `cur` is a pointer to one of the
maps stored in `sections`; since every pointer the API ever installs in
`cur` aliases a registered section, we model `cur` by that section's name. -/
structure Conf where
  sections : List (String × Sec)
  cur : String
deriving DecidableEq, Repr

/-- Model of `New`: one empty reserved global section, which is also current. -/
def Conf.new : Conf := ⟨[(GLOBAL, [])], GLOBAL⟩

/-- The section the `cur` pointer designates. -/
def Conf.curSec (conf : Conf) : Sec :=
  (lookupA conf.sections conf.cur).getD []

/-- Model of `Conf.GetItem`: resolve the key against the current section only. -/
def Conf.GetItem (conf : Conf) (key : String) : Except String Item :=
  match lookupA conf.curSec key with
  | some item => Except.ok item
  | none => Except.error ("non-exist item: " ++ key)

/-- Model of `Conf.HasItem`: membership in the current section only. -/
def Conf.HasItem (conf : Conf) (key : String) : Bool :=
  (lookupA conf.curSec key).isSome

/-- Model of `Conf.HasSection`: membership in the registered-section map. -/
def Conf.HasSection (conf : Conf) (name : String) : Bool :=
  (lookupA conf.sections name).isSome

/-- Model of `Conf.Section`: switch the current section, failing (and leaving the
cursor untouched) when the name is unregistered.  The Go method mutates the
receiver and returns an error; we return the updated state and the error. -/
def Conf.SectionCall (conf : Conf) (name : String) : Conf × Option String :=
  match lookupA conf.sections name with
  | some _ => ({ conf with cur := name }, none)
  | none => (conf, some ("no section " ++ squo ++ name ++ squo))

/-- Model of `Conf.SetGlobalSection`: restore the cursor to the reserved global
section. -/
def Conf.SetGlobalSection (conf : Conf) : Conf :=
  { conf with cur := GLOBAL }

/-- Model of `Conf.GetInt`: `GetItem` then `Item.ToInt`. -/
def Conf.GetInt (conf : Conf) (key : String) : Except String Int :=
  match conf.GetItem key with
  | Except.error e => Except.error e
  | Except.ok item => item.ToInt

/-- Model of `Conf.GetString`: `GetItem` then the raw value. -/
def Conf.GetString (conf : Conf) (key : String) : Except String String :=
  match conf.GetItem key with
  | Except.error e => Except.error e
  | Except.ok item => Except.ok item.val

/-- Model of `Conf.GetIntArray`: `GetItem` then `Item.ToIntArray`. -/
def Conf.GetIntArray (conf : Conf) (key : String) : Except String (List Int) :=
  match conf.GetItem key with
  | Except.error e => Except.error e
  | Except.ok item => item.ToIntArray

/-- Model of `Conf.GetStringArray`: `GetItem` then `Item.ToStringArray` (which is
total in the current revision). -/
def Conf.GetStringArray (conf : Conf) (key : String) : Except String (List String) :=
  match conf.GetItem key with
  | Except.error e => Except.error e
  | Except.ok item => Except.ok item.ToStringArray

/-- Model of `isSection`: first character `[` and last character `]` (only ever
called on a non-empty trimmed line). -/
def isSection (l : List Char) : Bool :=
  l.head? == some '[' && l.getLast? == some ']'

/-- The section-name token of a header line: `lineStr[1 : len(lineStr)-1]`,
trimmed. -/
def sectionNameOf (t : List Char) : String :=
  trimS ⟨(t.drop 1).take (t.length - 2)⟩

/-- The stages of one `Conf._parse` iteration that follow trimming and the
blank-line skip, on the trimmed line `t`: skip comment lines, register
section headers (rejecting duplicates), and store `key: value` items in the
current section (rejecting missing separators and empty values). -/
def Conf.handleLine (conf : Conf) (t : List Char) : Except String Conf :=
  if t.head? = some '#' then Except.ok conf
  else if isSection t then
    match lookupA conf.sections (sectionNameOf t) with
    | some _ =>
      Except.error
        ("section " ++ squo ++ sectionNameOf t ++ squo ++ " already exist")
    | none =>
      Except.ok ⟨insertA conf.sections (sectionNameOf t) [], sectionNameOf t⟩
  else
    match splitN2 ':' t with
    | [p0, p1] =>
      let key := trimS ⟨p0⟩
      let val := trimS ⟨p1⟩
      if val = "" then Except.error "an empty value"
      else
        Except.ok
          { conf with
            sections :=
              insertA conf.sections conf.cur
                (insertA conf.curSec key ⟨key, val⟩) }
    | _ =>
      Except.error
        ("need " ++ squo ++ ":" ++ squo ++ " in a line, line: " ++ (⟨t⟩ : String))

/-- One iteration of `Conf._parse`, for one line of input (the `ReadString`
chunk without its newline): trim, skip blank lines, strip a trailing
newline (the source has this explicit strip although `Trim` has already
removed it), then `handleLine`. -/
def Conf.parseLine (conf : Conf) (line : String) : Except String Conf :=
  let t0 := trimL line.data
  if t0 = [] then Except.ok conf
  else
    conf.handleLine (if t0.getLast? = some '\n' then t0.dropLast else t0)

/-- The `Conf._parse` loop over the lines of the input. -/
def Conf.parse : Conf → List String → Except String Conf
  | conf, [] => Except.ok conf
  | conf, l :: ls =>
    match conf.parseLine l with
    | Except.error e => Except.error e
    | Except.ok c => c.parse ls

/-- The chunks `ReadString('\n')` hands to `_parse`, minus their trailing
newline (which `_parse` trims away anyway): the input split at every
newline. -/
def linesOf (text : String) : List String := splitS '\n' text

/-- Model of `Conf.Parse` on in-memory text: run `_parse` over the lines and restore
the cursor to the global section on success. -/
def ParseText (text : String) : Except String Conf :=
  match Conf.new.parse (linesOf text) with
  | Except.error e => Except.error e
  | Except.ok c => Except.ok { c with cur := GLOBAL }

/-- The accumulation loop of tier (a) of `parseConfigOptName`: every
uppercase ASCII letter is lowered and, unless the buffer is still empty,
preceded by `_`; every other character is copied. -/
def snakeAux (acc : List Char) : List Char → List Char
  | [] => acc
  | c :: rest =>
    if 'A' ≤ c ∧ c ≤ 'Z' then
      let acc' := if acc ≠ [] then acc ++ ['_'] else acc
      snakeAux (acc' ++ [c.toLower]) rest
    else snakeAux (acc ++ [c]) rest

/-- Tier (a) of the loader's name resolution: the lower-snake-case
transform (`AExampleField` to `a_example_field`). -/
def snakeName (field : String) : String := ⟨snakeAux [] field.data⟩

/-- Tier (b): `strings.ToLower` (ASCII suffices for the identifiers the
loader meets). -/
def lowerName (field : String) : String := ⟨field.data.map Char.toLower⟩

/-- Model of `parseConfigOptName` of the current loader: try the snake-case name,
then the fully lowered name, then the verbatim field name; a tier matches
when `HasItem` or `HasSection` holds for it; no match yields `""`. -/
def parseConfigOptName (field : String) (conf : Conf) : String :=
  let f1 := snakeName field
  if conf.HasItem f1 || conf.HasSection f1 then f1
  else
    let f2 := lowerName field
    if conf.HasItem f2 || conf.HasSection f2 then f2
    else if conf.HasItem field || conf.HasSection field then field
    else ""

mutual
/-- The kind of a target-record field, as the loader's reflection walk
distinguishes them: integer family, string, slice of one of those, or a
nested record.  (The floating-point family is outside this embedding:
binary floating point has no faithful shallow model, and no claim involves
it.) -/
inductive FieldKind where
  | int : FieldKind
  | str : FieldKind
  | sliceInt : FieldKind
  | sliceStr : FieldKind
  | strct : Fields → FieldKind

/-- The field descriptors of a record: name and kind, in declaration
order. -/
inductive Fields where
  | nil : Fields
  | cons : String → FieldKind → Fields → Fields
end

/-- A value assigned into the target record by the loader. -/
inductive Value where
  | int : Int → Value
  | str : String → Value
  | ints : List Int → Value
  | strs : List String → Value
deriving DecidableEq, Repr

mutual
/-- Model of `loadField` of the current loader, for one field (all fields of the
embedding are settable, so the `CanSet` guard never fires): resolve the
name; an unresolved field is skipped; scalar and slice kinds fetch through
the typed getters and record the assignment; a nested record switches the
current section to the resolved name — discarding the error `Section`
returns, exactly as the source does — loads the inner fields, and then
restores the global section. -/
def loadField (conf : Conf) (fieldName : String) (kind : FieldKind) :
    Except String (Conf × List (String × Value)) :=
  let optName := parseConfigOptName fieldName conf
  if optName = "" then Except.ok (conf, [])
  else
    match kind with
    | FieldKind.int =>
      match conf.GetInt optName with
      | Except.error e => Except.error e
      | Except.ok v => Except.ok (conf, [(fieldName, Value.int v)])
    | FieldKind.str =>
      match conf.GetString optName with
      | Except.error e => Except.error e
      | Except.ok v => Except.ok (conf, [(fieldName, Value.str v)])
    | FieldKind.sliceInt =>
      match conf.GetIntArray optName with
      | Except.error e => Except.error e
      | Except.ok vs => Except.ok (conf, [(fieldName, Value.ints vs)])
    | FieldKind.sliceStr =>
      match conf.GetStringArray optName with
      | Except.error e => Except.error e
      | Except.ok vs => Except.ok (conf, [(fieldName, Value.strs vs)])
    | FieldKind.strct fs =>
      let conf1 := (conf.SectionCall optName).1
      match loadFields conf1 fs with
      | Except.error e => Except.error e
      | Except.ok (c2, asg) => Except.ok (c2.SetGlobalSection, asg)

/-- The field loop of `Load` (also the inner loop of the nested-record
branch): load each descriptor in order, aborting on the first error and
threading the `Conf` state through. -/
def loadFields (conf : Conf) : Fields → Except String (Conf × List (String × Value))
  | Fields.nil => Except.ok (conf, [])
  | Fields.cons n k rest =>
    match loadField conf n k with
    | Except.error e => Except.error e
    | Except.ok (c1, a1) =>
      match loadFields c1 rest with
      | Except.error e => Except.error e
      | Except.ok (c2, a2) => Except.ok (c2, a1 ++ a2)
end

/-- Model of `Load` of the current loader, on in-memory text: parse the config, then
load every field of the target record in declaration order. -/
def Load (fields : Fields) (text : String) : Except String (Conf × List (String × Value)) :=
  match ParseText text with
  | Except.error e => Except.error e
  | Except.ok conf => loadFields conf fields

/-- The composite-array key grammar as the specification states it: first
character `[`, last character `]`, `@` in position two, total length at
least four.  (Spec-side definition, used to state the claims about
`V0.Item.ToStringArray`.) -/
def isCompositeArrayKey (s : String) : Bool :=
  s.data.head? == some '[' && s.data.getLast? == some ']' &&
    s.data.get? 1 == some '@' && decide (4 ≤ s.data.length)

/-- Array splitting as the specification words it for the current revision:
split on the separator, drop the segments that are empty after trimming,
return the survivors trimmed.  (Spec-side definition, compared against
`Item.ToStringArray`.) -/
def specToStringArray (sep : Char) (val : String) : List String :=
  ((splitS sep val).filter (fun p => trimS p ≠ "")).map trimS

/-- A trimmed input line that is non-empty, no comment, no section header,
and contains no `:` separator.  (Spec-side classification used to state the
missing-separator claim.) -/
def badNoColon (line : String) : Bool :=
  let t := trimL line.data
  ¬(t = []) && ¬(t.head? = some '#') && ¬(isSection t) && ¬(':' ∈ t)

theorem string_mk_data (s : String) : (⟨s.data⟩ : String) = s := by
  cases s; rfl

theorem lookupA_insertA {α : Type} (l : List (String × α)) (k key : String) (v : α) :
    lookupA (insertA l k v) key = if k = key then some v else lookupA l key := by
  induction l with
  | nil => simp [insertA, lookupA]
  | cons hd tl ih =>
    obtain ⟨k', v'⟩ := hd
    by_cases h : k' = k
    · subst h
      simp [insertA, lookupA]
      split <;> simp_all [lookupA]
    · simp only [insertA, if_neg h, lookupA]
      by_cases h2 : k' = key
      · subst h2
        have : ¬(k = k') := fun hh => h hh.symm
        simp [lookupA, this, ih]
      · simp [lookupA, h2, ih]

theorem collectEles_eq (l : List String) :
    collectEles l = (l.filter (fun p => p ≠ "")).map trimS := by
  induction l with
  | nil => rfl
  | cons p rest ih =>
    by_cases h : p = ""
    · subst h; simp [collectEles, ih]
    · simp [collectEles, h, ih]

theorem list_get?_last {α : Type} (l : List α) (h : l ≠ []) :
    l.get? (l.length - 1) = l.getLast? := by
  induction l with
  | nil => simp at h
  | cons a tl ih =>
    cases tl with
    | nil => rfl
    | cons b tl' =>
      have h2 : (b :: tl') ≠ [] := by simp
      have := ih h2
      simpa [List.get?, List.getLast?_cons_cons, List.length_cons] using this

theorem head?_dropWhile_false {α : Type} (p : α → Bool) (l : List α) (c : α)
    (h : (l.dropWhile p).head? = some c) : p c = false := by
  induction l with
  | nil => simp [List.dropWhile] at h
  | cons a tl ih =>
    rw [List.dropWhile] at h
    by_cases hp : p a = true
    · rw [hp] at h; simp at h; exact ih h
    · simp [hp] at h
      subst h
      simpa using hp

theorem trimL_getLast_not_space (l : List Char) (c : Char)
    (h : (trimL l).getLast? = some c) : isSpaceChar c = false := by
  unfold trimL trimRightL at h
  rw [List.getLast?_reverse] at h
  exact head?_dropWhile_false _ _ _ h

theorem trimL_wrapped (xs : List Char) :
    trimL ('[' :: (xs ++ [']'])) = '[' :: (xs ++ [']']) := by
  have h1 : trimLeftL ('[' :: (xs ++ [']'])) = '[' :: (xs ++ [']']) := by
    simp [trimLeftL, List.dropWhile_cons, isSpaceChar]
  unfold trimL
  rw [h1]
  unfold trimRightL
  rw [List.reverse_cons, List.reverse_append]
  simp [isSpaceChar]

theorem parse_append (xs ys : List String) (c : Conf) :
    Conf.parse c (xs ++ ys) =
      match Conf.parse c xs with
      | Except.ok c' => Conf.parse c' ys
      | Except.error e => Except.error e := by
  induction xs generalizing c with
  | nil => simp [Conf.parse]
  | cons l ls ih =>
    simp only [List.cons_append, Conf.parse]
    cases h : c.parseLine l with
    | error e => simp
    | ok c2 => simpa using ih c2

theorem handleLine_cases (c c' : Conf) (t : List Char)
    (h : c.handleLine t = Except.ok c') :
    c' = c ∨ (∃ name, c' = ⟨insertA c.sections name [], name⟩) ∨
      (∃ sec, c' = ⟨insertA c.sections c.cur sec, c.cur⟩) := by
  unfold Conf.handleLine at h
  by_cases h1 : t.head? = some '#'
  · rw [if_pos h1] at h
    cases h
    left; rfl
  · rw [if_neg h1] at h
    by_cases h2 : isSection t = true
    · rw [if_pos h2] at h
      cases hl : lookupA c.sections (sectionNameOf t) with
      | some s => rw [hl] at h; cases h
      | none =>
        rw [hl] at h
        cases h
        right; left; exact ⟨_, rfl⟩
    · rw [if_neg h2] at h
      match hp : splitN2 ':' t with
      | [] => rw [hp] at h; cases h
      | [p0] => rw [hp] at h; cases h
      | [p0, p1] =>
        rw [hp] at h
        simp only at h
        by_cases hv : trimS ⟨p1⟩ = ""
        · rw [if_pos hv] at h; cases h
        · rw [if_neg hv] at h
          cases h
          right; right; exact ⟨_, rfl⟩
      | p0 :: p1 :: p2 :: rest => rw [hp] at h; cases h

theorem parseLine_cases (c c' : Conf) (l : String) (h : c.parseLine l = Except.ok c') :
    c' = c ∨ (∃ name, c' = ⟨insertA c.sections name [], name⟩) ∨
      (∃ sec, c' = ⟨insertA c.sections c.cur sec, c.cur⟩) := by
  unfold Conf.parseLine at h
  by_cases h0 : trimL l.data = []
  · rw [if_pos h0] at h
    cases h
    left; rfl
  · rw [if_neg h0] at h
    exact handleLine_cases c c' _ h

theorem parseLine_sections_mono (c c' : Conf) (l : String) (n : String)
    (h : c.parseLine l = Except.ok c') (hn : (lookupA c.sections n).isSome) :
    (lookupA c'.sections n).isSome := by
  rcases parseLine_cases c c' l h with h1 | ⟨name, h1⟩ | ⟨sec, h1⟩ <;> subst h1
  · exact hn
  · simp only [lookupA_insertA]
    split
    · simp
    · exact hn
  · simp only [lookupA_insertA]
    split
    · simp
    · exact hn

theorem parse_sections_mono (ls : List String) (c c' : Conf) (n : String)
    (h : Conf.parse c ls = Except.ok c') (hn : (lookupA c.sections n).isSome) :
    (lookupA c'.sections n).isSome := by
  induction ls generalizing c with
  | nil =>
    simp only [Conf.parse] at h
    cases h; exact hn
  | cons l rest ih =>
    simp only [Conf.parse] at h
    cases hline : c.parseLine l with
    | error e => rw [hline] at h; cases h
    | ok c2 =>
      rw [hline] at h
      exact ih c2 h (parseLine_sections_mono c c2 l n hline hn)

theorem header_data (name : String) :
    ("[" ++ name ++ "]").data = '[' :: (name.data ++ [']']) := by
  simp [String.data_append]

theorem parseLine_header (c : Conf) (name : String) (hn : trimS name = name) :
    c.parseLine ("[" ++ name ++ "]") =
      match lookupA c.sections name with
      | some _ =>
        Except.error ("section " ++ squo ++ name ++ squo ++ " already exist")
      | none => Except.ok ⟨insertA c.sections name [], name⟩ := by
  have hlast : ('[' :: (name.data ++ [']'])).getLast? = some ']' := by
    rw [show ('[' :: (name.data ++ [']'])) = ('[' :: name.data) ++ [']'] by simp]
    exact List.getLast?_concat _
  have hname : sectionNameOf ('[' :: (name.data ++ [']'])) = name := by
    unfold sectionNameOf
    have hdrop : ('[' :: (name.data ++ [']'])).drop 1 = name.data ++ [']'] := rfl
    have hlen : ('[' :: (name.data ++ [']'])).length - 2 = name.data.length := by
      simp
    rw [hdrop, hlen, List.take_left]
    have : trimS ⟨name.data⟩ = trimS name := by
      rw [string_mk_data]
    rw [this, hn]
  unfold Conf.parseLine
  rw [header_data, trimL_wrapped]
  rw [if_neg (by simp)]
  rw [hlast, if_neg (by decide)]
  unfold Conf.handleLine
  rw [if_neg (by simp)]
  rw [if_pos (by simp [isSection, hlast])]
  rw [hname]

theorem parseLine_noColon (c : Conf) (l : String) (hb : badNoColon l = true) :
    c.parseLine l =
      Except.error
        ("need " ++ squo ++ ":" ++ squo ++ " in a line, line: " ++
          (⟨trimL l.data⟩ : String)) := by
  simp only [badNoColon, Bool.and_eq_true, decide_eq_true_eq] at hb
  obtain ⟨⟨⟨h1, h2⟩, h3⟩, h4⟩ := hb
  unfold Conf.parseLine
  rw [if_neg h1]
  have hlast : ¬((trimL l.data).getLast? = some '\n') := by
    intro hq
    have := trimL_getLast_not_space l.data '\n' hq
    simp [isSpaceChar] at this
  rw [if_neg hlast]
  unfold Conf.handleLine
  rw [if_neg h2]
  rw [if_neg (by simp [h3])]
  have hdrop : (trimL l.data).dropWhile (fun c => c ≠ ':') = [] := by
    rw [List.dropWhile_eq_nil_iff]
    intro x hx
    simp only [decide_eq_true_eq]
    intro hcol
    exact h4 (hcol ▸ hx)
  unfold splitN2
  rw [hdrop]

/-- Claim C1: for an Item of the rawKey-carrying revision constructed with
rawKey `[@K]` and value `1 2 3`, `ToIntArray` returns `[1, 2, 3]`; with
rawKey `[@K@,]` and value `1,2,3` it also returns `[1, 2, 3]`: the
separator character named in the composite key overrides the default `' '`
at access time. -/
theorem c1_toIntArray_separator_override :
    (V0.Item.mk "[@K]" "1 2 3" (V0.parseKey "[@K]")).ToIntArray
        = GoRes.ok [1, 2, 3] ∧
      (V0.Item.mk "[@K@,]" "1,2,3" (V0.parseKey "[@K@,]")).ToIntArray
        = GoRes.ok [1, 2, 3] := by
  constructor
  · decide
  · decide

/-- Claim C2 (code bug): `Load` on a struct-kind field whose resolved name
`foo` is an item but not a registered section returns success — the struct
branch of `loadField` discards the error `Conf.Section` reports, switches
nothing, silently skips the unresolvable inner fields against the old
current section, and restores the global section — where the specification
requires the `Load` call to fail. -/
theorem c2_load_unregistered_section_succeeds :
    Load
        (Fields.cons "Foo"
          (FieldKind.strct (Fields.cons "Bar" FieldKind.int Fields.nil))
          Fields.nil)
        "foo: 1" =
      Except.ok (⟨[(GLOBAL, [("foo", ⟨"foo", "1"⟩)])], GLOBAL⟩, []) := by
  rfl

/-- Claim C6 counterexample: on the item `⟨"[@k]", "a \t b"⟩` the current
`Item.ToStringArray` returns `["a", "", "b"]` — the segment `"\t"` is
non-empty before trimming, so it is kept and trimmed to the empty string —
while the claim's split (drop every segment that is empty after trimming)
returns `["a", "b"]`. -/
theorem c6_counterexample :
    Item.ToStringArray ⟨"[@k]", "a \t b"⟩ = ["a", "", "b"] ∧
      specToStringArray elementSep "a \t b" = ["a", "b"] ∧
      Item.ToStringArray ⟨"[@k]", "a \t b"⟩ ≠ specToStringArray elementSep "a \t b" := by
  refine ⟨by decide, by decide, ?_⟩
  decide

/-- Claim C6 as amended: `Item.ToStringArray` splits the value on the
process-wide element separator, drops the segments that are empty before
trimming, and returns the surviving segments trimmed of spaces, tabs and
newlines (so a segment consisting only of whitespace survives as an empty
string). -/
theorem c6_split_drops_pretrim_empty (item : Item) :
    item.ToStringArray =
      ((splitS elementSep item.val).filter (fun p => p ≠ "")).map trimS := by
  unfold Item.ToStringArray
  exact collectEles_eq _

/-- Claim C10: switching to an unregistered section fails, reports the
missing name, and leaves the configuration — hence the behavior of every
subsequent `HasItem` and `GetItem` call — unchanged. -/
theorem c10_section_missing_no_change (conf : Conf) (name : String)
    (h : lookupA conf.sections name = none) :
    conf.SectionCall name = (conf, some ("no section " ++ squo ++ name ++ squo)) ∧
      (∀ k, ((conf.SectionCall name).1).HasItem k = conf.HasItem k) ∧
      (∀ k, ((conf.SectionCall name).1).GetItem k = conf.GetItem k) := by
  have hc : conf.SectionCall name = (conf, some ("no section " ++ squo ++ name ++ squo)) := by
    unfold Conf.SectionCall
    rw [h]
  refine ⟨hc, fun k => ?_, fun k => ?_⟩
  · rw [hc]
  · rw [hc]

/-- Claim C10 witness: switching a fresh configuration to the unregistered
section `nope` fails with the missing-section error, changes nothing, and
leaves `HasItem "x"` as it was. -/
theorem c10_witness :
    Conf.new.SectionCall "nope" =
        (Conf.new, some ("no section " ++ squo ++ "nope" ++ squo)) ∧
      ((Conf.new.SectionCall "nope").1).HasItem "x" = Conf.new.HasItem "x" :=
  ⟨(c10_section_missing_no_change Conf.new "nope" rfl).1,
    (c10_section_missing_no_change Conf.new "nope" rfl).2.1 "x"⟩

/-- Claim C9: when `loadField` finishes a nested-record (struct-kind) field
successfully, starting from the global section, the resulting
current-section cursor is the global section again (the unresolved-name
skip leaves the state untouched; the struct branch ends in
`SetGlobalSection`), so the next field of an enclosing `Load` starts its
resolution from the global section and no section context leaks between
fields. -/
theorem c9_struct_field_restores_global (conf : Conf) (hcur : conf.cur = GLOBAL)
    (name : String) (fs : Fields) (conf' : Conf) (asg : List (String × Value))
    (h : loadField conf name (FieldKind.strct fs) = Except.ok (conf', asg)) :
    conf'.cur = GLOBAL := by
  unfold loadField at h
  by_cases ho : parseConfigOptName name conf = ""
  · rw [if_pos ho] at h
    cases h
    exact hcur
  · rw [if_neg ho] at h
    cases hl : loadFields ((conf.SectionCall (parseConfigOptName name conf)).1) fs with
    | error e =>
      simp only [hl] at h
      cases h
    | ok p =>
      obtain ⟨c2, a⟩ := p
      simp only [hl] at h
      cases h
      rfl

/-- Claim C9 witness: loading the struct-kind field `Foo` (resolving to the
registered section `foo`) from the global section ends with the cursor back
on the global section. -/
theorem c9_witness :
    (⟨[(GLOBAL, []), ("foo", [])], GLOBAL⟩ : Conf).cur = GLOBAL :=
  c9_struct_field_restores_global ⟨[(GLOBAL, []), ("foo", [])], GLOBAL⟩ rfl
    "Foo" Fields.nil ⟨[(GLOBAL, []), ("foo", [])], GLOBAL⟩ [] rfl

/-- Claim C4: the loader resolves a field name by trying, in order, the
lower-snake-case transform, the fully lower-cased name, and the verbatim
name; a tier wins as soon as `HasItem` or `HasSection` holds for it.  For
the field `AExampleField` the three candidate keys are `a_example_field`,
`aexamplefield` and `AExampleField`. -/
theorem c4_resolution_order (conf : Conf) :
    snakeName "AExampleField" = "a_example_field" ∧
      lowerName "AExampleField" = "aexamplefield" ∧
      ((conf.HasItem "a_example_field" || conf.HasSection "a_example_field") = true →
        parseConfigOptName "AExampleField" conf = "a_example_field") ∧
      ((conf.HasItem "a_example_field" || conf.HasSection "a_example_field") = false →
        (conf.HasItem "aexamplefield" || conf.HasSection "aexamplefield") = true →
        parseConfigOptName "AExampleField" conf = "aexamplefield") ∧
      ((conf.HasItem "a_example_field" || conf.HasSection "a_example_field") = false →
        (conf.HasItem "aexamplefield" || conf.HasSection "aexamplefield") = false →
        (conf.HasItem "AExampleField" || conf.HasSection "AExampleField") = true →
        parseConfigOptName "AExampleField" conf = "AExampleField") := by
  have hs : snakeName "AExampleField" = "a_example_field" := by decide
  have hl : lowerName "AExampleField" = "aexamplefield" := by decide
  refine ⟨hs, hl, ?_, ?_, ?_⟩
  · intro h1
    unfold parseConfigOptName
    rw [hs, if_pos h1]
  · intro h1 h2
    unfold parseConfigOptName
    rw [hs, if_neg (by simp [h1]), hl, if_pos h2]
  · intro h1 h2 h3
    unfold parseConfigOptName
    rw [hs, if_neg (by simp [h1]), hl, if_neg (by simp [h2]), if_pos h3]

/-- Claim C4 witness: three configurations each containing exactly one of
the candidate keys; each variant matches on its own. -/
theorem c4_witness :
    parseConfigOptName "AExampleField"
        ⟨[(GLOBAL, [("a_example_field", ⟨"a_example_field", "1"⟩)])], GLOBAL⟩
        = "a_example_field" ∧
      parseConfigOptName "AExampleField"
        ⟨[(GLOBAL, [("aexamplefield", ⟨"aexamplefield", "1"⟩)])], GLOBAL⟩
        = "aexamplefield" ∧
      parseConfigOptName "AExampleField"
        ⟨[(GLOBAL, [("AExampleField", ⟨"AExampleField", "1"⟩)])], GLOBAL⟩
        = "AExampleField" :=
  ⟨(c4_resolution_order _).2.2.1 (by decide),
    (c4_resolution_order _).2.2.2.1 (by decide) (by decide),
    (c4_resolution_order _).2.2.2.2 (by decide) (by decide) (by decide)⟩

/-- Claim C8: after a successful `Section(name)` switch the lookups
`HasItem` and `GetItem` consult exactly the items of that registered
section — a key is visible precisely when that section maps it, so no
global (or other-section) item shines through — and a subsequent
`SetGlobalSection()` makes exactly the global-section items visible
again. -/
theorem c8_lookup_scoped_to_current (conf : Conf) (name : String) (s : Sec)
    (hs : lookupA conf.sections name = some s) :
    (conf.SectionCall name).2 = none ∧
      (∀ k, ((conf.SectionCall name).1).HasItem k = (lookupA s k).isSome) ∧
      (∀ k it, ((conf.SectionCall name).1).GetItem k = Except.ok it ↔
        lookupA s k = some it) ∧
      (∀ k, (((conf.SectionCall name).1).SetGlobalSection).HasItem k
          = (lookupA ((lookupA conf.sections GLOBAL).getD []) k).isSome) := by
  have hc : conf.SectionCall name = ({ conf with cur := name }, none) := by
    unfold Conf.SectionCall
    rw [hs]
  have hcur : ({ conf with cur := name } : Conf).curSec = s := by
    unfold Conf.curSec
    simp [hs]
  refine ⟨by rw [hc], fun k => ?_, fun k it => ?_, fun k => ?_⟩
  · rw [hc]
    unfold Conf.HasItem
    rw [hcur]
  · rw [hc]
    unfold Conf.GetItem
    rw [hcur]
    cases hl : lookupA s k with
    | some it' => simp
    | none => simp
  · rw [hc]
    unfold Conf.SetGlobalSection Conf.HasItem Conf.curSec
    simp

/-- Claim C8 witness: with a global item `g` and a section `S1` holding the
single item `a`, switching to `S1` makes `a` visible and `g` invisible, and
`SetGlobalSection` makes `g` visible again. -/
theorem c8_witness :
    (((⟨[(GLOBAL, [("g", ⟨"g", "1"⟩)]), ("S1", [("a", ⟨"a", "2"⟩)])],
        GLOBAL⟩ : Conf).SectionCall "S1").1).HasItem "a" = true ∧
      (((⟨[(GLOBAL, [("g", ⟨"g", "1"⟩)]), ("S1", [("a", ⟨"a", "2"⟩)])],
        GLOBAL⟩ : Conf).SectionCall "S1").1).HasItem "g" = false ∧
      ((((⟨[(GLOBAL, [("g", ⟨"g", "1"⟩)]), ("S1", [("a", ⟨"a", "2"⟩)])],
        GLOBAL⟩ : Conf).SectionCall "S1").1).SetGlobalSection).HasItem "g" = true := by
  refine ⟨?_, ?_, ?_⟩
  · exact (c8_lookup_scoped_to_current
      ⟨[(GLOBAL, [("g", ⟨"g", "1"⟩)]), ("S1", [("a", ⟨"a", "2"⟩)])], GLOBAL⟩
      "S1" [("a", ⟨"a", "2"⟩)] rfl).2.1 "a"
  · exact (c8_lookup_scoped_to_current
      ⟨[(GLOBAL, [("g", ⟨"g", "1"⟩)]), ("S1", [("a", ⟨"a", "2"⟩)])], GLOBAL⟩
      "S1" [("a", ⟨"a", "2"⟩)] rfl).2.1 "g"
  · exact (c8_lookup_scoped_to_current
      ⟨[(GLOBAL, [("g", ⟨"g", "1"⟩)]), ("S1", [("a", ⟨"a", "2"⟩)])], GLOBAL⟩
      "S1" [("a", ⟨"a", "2"⟩)] rfl).2.2.2 "g"

/-- Claim C3 counterexample: the claim quantifies over every Item whose
rawKey fails the composite-array grammar, but at the Item with the empty
rawKey the early `ToStringArray` hits `rawKey[0]` out of range — a runtime
panic — instead of returning the not-an-array error. -/
theorem c3_counterexample :
    isCompositeArrayKey "" = false ∧
      (V0.Item.mk "" "x" "").ToStringArray = GoRes.panic ∧
      (V0.Item.mk "" "x" "").ToStringArray ≠
        GoRes.fail ("item is not a Array, key: " ++ "") := by
  refine ⟨by decide, by decide, by decide⟩

/-- Claim C3 as amended: for every Item with a non-empty rawKey that does
not match the composite-array grammar (first character `[`, last `]`, `@`
in position two, length at least 4) — the malformed `[@]` included — the
early `ToStringArray` fails with the not-an-array error naming the key,
rather than returning a split of the value. -/
theorem c3_nonarray_key_fails (item : V0.Item) (hne : item.rawKey ≠ "")
    (hg : isCompositeArrayKey item.rawKey = false) :
    item.ToStringArray =
      GoRes.fail ("item is not a Array, key: " ++ item.rawKey) := by
  obtain ⟨rk, v, ky⟩ := item
  have hdat : rk.data ≠ [] := by
    intro hq
    exact hne (String.ext (hq.trans rfl))
  have hpos : 0 < rk.data.length := List.length_pos.mpr hdat
  simp only [V0.Item.ToStringArray]
  split
  · rename_i heq0
    rw [List.get?_eq_none] at heq0
    exact absurd (List.eq_nil_of_length_eq_zero (Nat.le_zero.mp heq0)) hdat
  · rename_i c0 heq0
    split
    · rfl
    · rename_i h0
      have hc0 : c0 = '[' := not_not.mp h0
      split
      · rename_i heq1
        rw [List.get?_eq_none] at heq1
        omega
      · rename_i cl heq1
        split
        · rfl
        · rename_i h1
          have hcl : cl = ']' := not_not.mp h1
          split
          · rename_i heq2
            exfalso
            rw [List.get?_eq_none] at heq2
            have hlen1 : rk.data.length = 1 := by omega
            rw [hlen1, show (1 : Nat) - 1 = 0 from rfl, List.get?_zero] at heq1
            rw [List.get?_zero] at heq0
            rw [heq0] at heq1
            cases heq1
            simp [hc0] at hcl
          · rename_i c1 heq2
            split
            · rfl
            · rename_i h2
              have hc1 : c1 = '@' := not_not.mp h2
              split
              · rfl
              · rename_i h3
                exfalso
                have hhead : rk.data.head? = some '[' := by
                  rw [← List.get?_zero, heq0, hc0]
                have hlast2 : rk.data.getLast? = some ']' := by
                  rw [← list_get?_last _ hdat, heq1, hcl]
                have hat : rk.data.get? 1 = some '@' := by
                  rw [heq2, hc1]
                have h4 : 4 ≤ rk.data.length := Nat.not_lt.mp h3
                simp only [isCompositeArrayKey, hhead, hlast2, hat] at hg
                simp at hg
                have hlen : rk.length = rk.data.length := rfl
                omega

/-- Claim C3 witness: the malformed composite key `[@]` (length three) is
rejected by the early `ToStringArray` with the not-an-array error. -/
theorem c3_witness :
    ("[@]" : String) ≠ "" ∧
      isCompositeArrayKey "[@]" = false ∧
      (V0.Item.mk "[@]" "1" (V0.parseKey "[@]")).ToStringArray =
        GoRes.fail ("item is not a Array, key: " ++ "[@]") :=
  ⟨by decide, by decide,
    c3_nonarray_key_fails (V0.Item.mk "[@]" "1" (V0.parseKey "[@]"))
      (by decide) (by decide)⟩

/-- Claim C5: if the input declares the same section name in two
section-header lines — whatever lies between or after them, so in
particular whether or not the two section bodies differ — `_parse` fails
with the duplicate-section error naming that section: a section name is
registered at most once per parse. -/
theorem c5_duplicate_section_error (pre mid post : List String) (name : String)
    (st : Conf) (hn : trimS name = name)
    (h : Conf.parse Conf.new (pre ++ ("[" ++ name ++ "]") :: mid) = Except.ok st) :
    Conf.parse Conf.new
        ((pre ++ ("[" ++ name ++ "]") :: mid) ++ (("[" ++ name ++ "]") :: post)) =
      Except.error ("section " ++ squo ++ name ++ squo ++ " already exist") := by
  have hreg : (lookupA st.sections name).isSome := by
    rw [parse_append] at h
    cases hpre : Conf.parse Conf.new pre with
    | error e => simp [hpre] at h
    | ok c1 =>
      simp only [hpre] at h
      simp only [Conf.parse] at h
      cases hline : c1.parseLine ("[" ++ name ++ "]") with
      | error e => simp [hline] at h
      | ok c2 =>
        simp only [hline] at h
        have hc2 : (lookupA c2.sections name).isSome := by
          rw [parseLine_header c1 name hn] at hline
          cases hl : lookupA c1.sections name with
          | some s => simp [hl] at hline
          | none =>
            simp only [hl] at hline
            cases hline
            simp [lookupA_insertA]
        exact parse_sections_mono mid c2 st name h hc2
  rw [parse_append, h]
  simp only [Conf.parse]
  rw [parseLine_header st name hn]
  cases hl : lookupA st.sections name with
  | some s => simp [hl]
  | none =>
    rw [hl] at hreg
    cases hreg

/-- Claim C5 witness: the header `[S]` declared twice is rejected with the
duplicate-section error naming `S`. -/
theorem c5_witness :
    Conf.parse Conf.new
        (([] ++ ("[" ++ "S" ++ "]") :: []) ++ (("[" ++ "S" ++ "]") :: [])) =
      Except.error ("section " ++ squo ++ "S" ++ squo ++ " already exist") :=
  c5_duplicate_section_error [] [] [] "S" ⟨[(GLOBAL, []), ("S", [])], "S"⟩
    (by decide) (by rfl)

/-- Claim C7: a line whose trim is non-empty, no comment, no section
header, and has no `:` separator — a dangling final line included — makes
`_parse` fail: when the preceding lines parse cleanly the error cites that
line, and whenever such a line occurs anywhere in the input the parse never
returns success. -/
theorem c7_missing_separator_fatal (l : String) (hb : badNoColon l = true) :
    (∀ (pre post : List String) (c1 : Conf), Conf.parse Conf.new pre = Except.ok c1 →
      Conf.parse Conf.new (pre ++ l :: post) =
        Except.error ("need " ++ squo ++ ":" ++ squo ++ " in a line, line: " ++
          (⟨trimL l.data⟩ : String))) ∧
    (∀ (c : Conf) (lines : List String), l ∈ lines →
      ∀ st, Conf.parse c lines ≠ Except.ok st) := by
  constructor
  · intro pre post c1 hpre
    rw [parse_append, hpre]
    simp only [Conf.parse]
    rw [parseLine_noColon c1 l hb]
  · intro c lines
    induction lines generalizing c with
    | nil =>
      intro hmem
      simp at hmem
    | cons x xs ih =>
      intro hmem st hok
      simp only [Conf.parse] at hok
      cases hline : c.parseLine x with
      | error e => simp [hline] at hok
      | ok c2 =>
        simp only [hline] at hok
        rw [List.mem_cons] at hmem
        rcases hmem with hx | hxs
        · subst hx
          rw [parseLine_noColon c l hb] at hline
          cases hline
        · exact ih c2 hxs st hok

/-- Claim C7 witness: the input `item1:  valu` followed by the dangling
line `item1jfak` fails with the missing-separator error citing that
line. -/
theorem c7_witness :
    Conf.parse Conf.new (["item1:  valu"] ++ "item1jfak" :: []) =
      Except.error ("need " ++ squo ++ ":" ++ squo ++ " in a line, line: " ++
        (⟨trimL "item1jfak".data⟩ : String)) :=
  (c7_missing_separator_fatal "item1jfak" (by decide)).1 ["item1:  valu"] []
    ⟨[(GLOBAL, [("item1", ⟨"item1", "valu"⟩)])], GLOBAL⟩ (by rfl)

/-- Claim C6 witness: the amended splitting law evaluated at a concrete
item. -/
theorem c6_witness :
    Item.ToStringArray ⟨"k", "1 2"⟩ =
      ((splitS elementSep "1 2").filter (fun p => p ≠ "")).map trimS :=
  c6_split_drops_pretrim_empty ⟨"k", "1 2"⟩
